import Mathlib

/-!
Verification of the SSE (Server-Sent Events) client library.

The development shallowly embeds the repository's data model and
operations: the line scanner, the stream decoder, the `Event` value
type, the `ReadyState` enumeration, the decoder constructors, and the
event-source controller loop.  Byte streams are modelled as `List Char`;
channels of delivered events are modelled as lists in delivery order.
-/

set_option autoImplicit false

/-- The characters of a string; used to write concrete wire inputs. -/
def chars (s : String) : List Char := s.data

/-- The `event` struct of `event.go`: an immutable value with `id`,
`name` and `data`.  `newEvent` deep-copies the payload, so the Lean
value-level record models it exactly. -/
structure Event where
  id : List Char
  name : List Char
  data : List Char
deriving DecidableEq

/-- Modelled from the spec: `scanlines.go` (the `scanLinesCR` split
function installed by both decoder constructors) is not under `src/`.
Per spec section 4.1 a line ends at the first occurrence of CR, LF, or
CRLF, with the terminator stripped; a trailing unterminated remainder is
returned as a final line.  `acc` holds the current line read so far, in
reverse. -/
def splitLinesAux : List Char → List Char → List (List Char)
  | [], acc => if acc = [] then [] else [acc.reverse]
  | '\r' :: '\n' :: rest, acc => acc.reverse :: splitLinesAux rest []
  | '\r' :: rest, acc => acc.reverse :: splitLinesAux rest []
  | '\n' :: rest, acc => acc.reverse :: splitLinesAux rest []
  | c :: rest, acc => splitLinesAux rest (c :: acc)

/-- The line scanner: splits a raw character stream into logical lines. -/
def splitLines (input : List Char) : List (List Char) := splitLinesAux input []

/-- Modelled from the spec: the default retry interval constant
`defaultRetry` referenced by the decoder constructors lives in the
missing `decoder.go`; spec section 3 fixes it only as "a fixed value,
e.g. 2-3 seconds" (milliseconds here). -/
def defaultRetry : Nat := 2000

/-- Modelled from the spec: the decoder working state (missing
`decoder.go`): the pending `data` chunk accumulator, pending `id`,
pending event `name`, and the currently configured `retry` interval. -/
structure DecoderState where
  data : List (List Char)
  id : List Char
  name : List Char
  retry : Nat
deriving DecidableEq

/-- The decoder state a fresh decoder starts from. -/
def initialDecoderState : DecoderState := ⟨[], [], [], defaultRetry⟩

/-- The field name of a line: the text before the first colon
(the whole line when there is no colon). -/
def fieldName (l : List Char) : List Char := l.takeWhile (fun c => c ≠ ':')

/-- The raw field value of a line: the text after the first colon
(empty when there is no colon). -/
def rawFieldValue (l : List Char) : List Char := (l.dropWhile (fun c => c ≠ ':')).drop 1

/-- Strips at most one leading space. -/
def stripOneSpace : List Char → List Char
  | ' ' :: rest => rest
  | l => l

/-- The field value of a line: the text after the first colon with at
most one leading space stripped. -/
def fieldValue (l : List Char) : List Char := stripOneSpace (rawFieldValue l)

/-- Modelled from the spec: the `retry` field value must parse as a
non-negative integer (spec section 4.2), otherwise it is ignored. -/
def parseRetry (v : List Char) : Option Nat :=
  if v ≠ [] ∧ v.all (fun c => c.isDigit) then
    some (v.foldl (fun n c => n * 10 + (c.toNat - 48)) 0)
  else none

/-- Modelled from the spec: processing of one non-empty line by the
decoder (missing `decoder.go`), per spec section 4.2 as pinned down by
the decoder tests in `src/decoder_test.go`: a line beginning with `:` is
a comment (its field name is empty, hence ignored); otherwise the line
is split at the first colon into field name and value — a line with no
colon at all is that field with an empty value; `data` appends a chunk,
`id` and `event` overwrite the pending id and name, `retry` updates the
retry interval when its value parses, and unknown fields are ignored. -/
def stepField (s : DecoderState) (l : List Char) : DecoderState :=
  if fieldName l = chars "data" then { s with data := s.data ++ [fieldValue l] }
  else if fieldName l = chars "id" then { s with id := fieldValue l }
  else if fieldName l = chars "event" then { s with name := fieldValue l }
  else if fieldName l = chars "retry" then
    match parseRetry (fieldValue l) with
    | some ms => { s with retry := ms }
    | none => s
  else s

/-- Modelled from the spec: the state change at a dispatch boundary —
the `data` accumulator and the event name are cleared, the pending `id`
and the `retry` interval are kept. -/
def clearAtBoundary (s : DecoderState) : DecoderState := { s with data := [], name := [] }

/-- Joins data chunks with a single newline, in order. -/
def joinNL : List (List Char) → List Char
  | [] => []
  | [c] => c
  | c :: rest => c ++ '\n' :: joinNL rest

/-- The event emitted at a dispatch boundary: built from the current
pending id, event name, and the newline-joined data chunks. -/
def mkEvent (s : DecoderState) : Event := ⟨s.id, s.name, joinNL s.data⟩

/-- The decoder state transition for one scanned line: an empty line is
a dispatch boundary, any other line is processed as a field line. -/
def stepLine (s : DecoderState) (l : List Char) : DecoderState :=
  if l = [] then clearAtBoundary s else stepField s l

/-- Modelled from the spec: the decoder's event stream over scanned
lines (missing `decoder.go`).  An empty line is a dispatch boundary: an
event is emitted exactly when at least one data chunk (possibly
zero-length) was accumulated; the stream ends with the input with no
end-of-stream flush. -/
def decodeLines : List (List Char) → DecoderState → List Event
  | [], _ => []
  | l :: ls, s =>
    if l = [] then
      if s.data = [] then decodeLines ls (clearAtBoundary s)
      else mkEvent s :: decodeLines ls (clearAtBoundary s)
    else decodeLines ls (stepField s l)

/-- The function `decode`: the full decoder pipeline from a raw character stream to
the list of emitted events, in emission order. -/
def sseDecode (input : List Char) : List Event :=
  decodeLines (splitLines input) initialDecoderState

example : sseDecode (chars "event: some event\r\ndata: some event value\r\n\n")
    = [⟨[], chars "some event", chars "some event value"⟩] := by decide

example : sseDecode (chars "data: YHOO\ndata: +2\ndata: 10\n\n")
    = [⟨[], [], chars "YHOO\n+2\n10"⟩] := by decide

example : sseDecode (chars "data:   first\n\n") = [⟨[], [], chars "  first"⟩] := by decide

example : sseDecode (chars "data\n\ndata\ndata\n\ndata:")
    = [⟨[], [], []⟩, ⟨[], [], chars "\n"⟩] := by decide

example :
    sseDecode (chars ": test stream\n\ndata: first event\nid: 1\n\ndata:second event\nid\n\ndata:  third event\n\n")
    = [⟨chars "1", [], chars "first event"⟩, ⟨[], [], chars "second event"⟩,
       ⟨[], [], chars " third event"⟩] := by decide

example : sseDecode (chars "data: this is \r\ndata: a test\r\n\r\n")
    = [⟨[], [], chars "this is \na test"⟩] := by decide

example : sseDecode (chars "event: first event\r\ndata: first value\r\n\nevent: second event\r\ndata: second value\r\n\n")
    = [⟨[], chars "first event", chars "first value"⟩,
       ⟨[], chars "second event", chars "second value"⟩] := by decide

/-- The `ReadyState` enumeration of `readystate.go`. -/
inductive ReadyState
  | Connecting
  | Open
  | Closing
  | Closed
deriving DecidableEq

/-- The numeric encoding of `ReadyState` fixed by `readystate.go`
(`type ReadyState uint16` with `iota` values). -/
def ReadyState.code : ReadyState → Nat
  | .Connecting => 0
  | .Open => 1
  | .Closing => 2
  | .Closed => 3

/-- The split function installed on the decoder's scanner; both
constructors in `decoder_go1.6.go` install `scanLinesCR`. -/
inductive SplitFunction
  | scanLinesCR
deriving DecidableEq

/-- The `Decoder` value built by the constructors in
`decoder_go1.6.go`: the wrapped input stream, the scanner's line-buffer
capacity (`none` is `bufio`'s growing default, `some n` a fixed capacity
installed via `Buffer`), the installed split function, the empty data
accumulator (`new(bytes.Buffer)`), and the retry interval. -/
structure Decoder where
  input : List Char
  bufferCap : Option Nat
  splitFn : SplitFunction
  data : List (List Char)
  retry : Nat
deriving DecidableEq

/-- The constructor `NewDecoderSize` of `decoder_go1.6.go`: installs a fixed-capacity
line buffer only when `bufferSize > 0`. -/
def NewDecoderSize (input : List Char) (bufferSize : Int) : Decoder :=
  { input := input
    bufferCap := if bufferSize > 0 then some bufferSize.toNat else none
    splitFn := .scanLinesCR
    data := []
    retry := defaultRetry }

/-- The constructor `NewDecoder` of `decoder_go1.6.go`: delegates to `NewDecoderSize`
with buffer size 0. -/
def NewDecoder (input : List Char) : Decoder := NewDecoderSize input 0

/-- The SSE media type the response content-type is checked against. -/
def sseMediaType : List Char := chars "text/event-stream"

/-- The content-type error (`ErrContentType`) returned by the
event-source controller. -/
inductive SseError
  | ErrContentType
deriving DecidableEq

/-- One server response consumed by a connection attempt: its
content-type header and the byte stream of its body. -/
structure Response where
  contentType : List Char
  body : List Char
deriving DecidableEq

/-- The controller state surviving across connection attempts: the
decoder working state (spec section 3: reused across reconnects within
one logical EventSource) and the committed last event id. -/
structure ESState where
  ds : DecoderState
  lastEventID : List Char
deriving DecidableEq

/-- The committed last-event id after delivering `evs`: each delivered
event's id is committed at handoff, so the result is the last delivered
event's id, or the previous value when nothing was delivered. -/
def commitLast (last : List Char) (evs : List Event) : List Char :=
  evs.foldl (fun _ e => e.id) last

/-- The observable outcome of running an EventSource to completion:
error surfaced by `open`, final ready state, events delivered to the
consumer queue in order, whether the queue was closed, the number of
connection attempts made, the sleep durations (in ms) between attempts,
and the final committed last-event id. -/
structure RunOutcome where
  err : Option SseError
  finalState : ReadyState
  delivered : List Event
  queueClosed : Bool
  connectionAttempts : Nat
  waits : List Nat
  lastID : List Char
deriving DecidableEq

/-- Modelled from the spec: the event-source controller loop (missing
`eventsource.go`), per spec section 4.4, sequentially: each connection
attempt consumes the next scripted response; a content-type mismatch is
a permanent failure (error surfaced, state `Closed`, queue closed, no
further attempt, no wait); on a valid stream the body is decoded, the
events are handed to the consumer queue in order, each delivered id is
committed; on stream drop the controller sleeps the retry interval
currently in effect and reconnects; when the server accepts no further
connection the source finalizes `Closed` with the queue closed. -/
def runES : List Response → ESState → RunOutcome
  | [], st => ⟨none, .Closed, [], true, 0, [], st.lastEventID⟩
  | r :: rest, st =>
    if r.contentType ≠ sseMediaType then
      ⟨some .ErrContentType, .Closed, [], true, 1, [], st.lastEventID⟩
    else
      let lines := splitLines r.body
      let evs := decodeLines lines st.ds
      let ds2 := lines.foldl stepLine st.ds
      let o := runES rest ⟨ds2, commitLast st.lastEventID evs⟩
      ⟨o.err, o.finalState, evs ++ o.delivered, o.queueClosed,
       o.connectionAttempts + 1,
       (if rest = [] then [] else [ds2.retry]) ++ o.waits,
       o.lastID⟩

/-- The controller state of a freshly opened EventSource. -/
def initialESState : ESState := ⟨initialDecoderState, []⟩

example :
    runES [⟨chars "text/plain; charset=utf-8", chars "data: x\n\n"⟩,
           ⟨sseMediaType, chars "data: y\n\n"⟩] initialESState
    = ⟨some .ErrContentType, .Closed, [], true, 1, [], []⟩ := by decide

example :
    (runES [⟨sseMediaType, chars "retry: 100\n"⟩,
            ⟨sseMediaType, chars "retry: 1\ndata: x\n\n"⟩,
            ⟨sseMediaType, chars "data: y\n\n"⟩] initialESState).waits = [100, 1] := by decide

example :
    (runES [⟨sseMediaType, chars "id: 123\ndata: x\n\n"⟩,
            ⟨sseMediaType, chars "data: y\n\n"⟩] initialESState).lastID = chars "123" := by decide

/-- A line terminator convention: CR, LF, or CRLF. -/
inductive LineEnd
  | cr
  | lf
  | crlf
deriving DecidableEq

/-- The characters of a line terminator. -/
def LineEnd.val : LineEnd → List Char
  | .cr => ['\r']
  | .lf => ['\n']
  | .crlf => ['\r', '\n']

/-- A line that may appear inside a record on the wire: non-empty and
free of line-terminator characters. -/
def SafeLine (l : List Char) : Prop := l ≠ [] ∧ '\r' ∉ l ∧ '\n' ∉ l

instance (l : List Char) : Decidable (SafeLine l) := by
  unfold SafeLine; infer_instance

/-- A well-formed SSE record: a list of safe field lines at least one of
which is a `data` field line, so that the record emits an event. -/
def WFRecord (r : List (List Char)) : Prop :=
  (∀ l ∈ r, SafeLine l) ∧ ∃ l ∈ r, fieldName l = chars "data"

instance (r : List (List Char)) : Decidable (WFRecord r) := by
  unfold WFRecord; infer_instance

/-- One record on the wire: each of its lines followed by the line
terminator, then a blank line (the terminator alone). -/
def serializeRecord (t : LineEnd) (r : List (List Char)) : List Char :=
  (r.map (fun l => l ++ t.val)).flatten ++ t.val

/-- A stream of records on the wire, under one terminator convention. -/
def serializeStream (t : LineEnd) (rs : List (List (List Char))) : List Char :=
  (rs.map (serializeRecord t)).flatten

/-- The per-record reference semantics: each record emits exactly one
event, built from the state after its field lines; the boundary then
clears data and name before the next record. -/
def recordEvents : DecoderState → List (List (List Char)) → List Event
  | _, [] => []
  | s, r :: rs =>
    mkEvent (r.foldl stepField s) :: recordEvents (clearAtBoundary (r.foldl stepField s)) rs

example :
    sseDecode (serializeStream .crlf [[chars "data: a"], [chars "data: b"]])
    = [⟨[], [], chars "a"⟩, ⟨[], [], chars "b"⟩] := by decide

example :
    sseDecode (serializeStream .cr [[chars "data: a"], [chars "data: b"]])
    = recordEvents initialDecoderState [[chars "data: a"], [chars "data: b"]] := by decide

/-- A decoder following claim C3's literal words: every line with no
colon, or an empty line, is a dispatch boundary.  Stated only for
comparison with `decodeLines`, which follows the behaviour pinned down
by the repository's decoder tests. -/
def decodeLinesNoColonBoundary : List (List Char) → DecoderState → List Event
  | [], _ => []
  | l :: ls, s =>
    if l.contains ':' then decodeLinesNoColonBoundary ls (stepField s l)
    else if s.data = [] then decodeLinesNoColonBoundary ls (clearAtBoundary s)
    else mkEvent s :: decodeLinesNoColonBoundary ls (clearAtBoundary s)

example :
    decodeLinesNoColonBoundary (splitLines (chars "data\n\ndata\ndata\n\n")) initialDecoderState
    = [] := by decide

theorem splitLinesAux_lf (rest acc : List Char) :
    splitLinesAux ('\n' :: rest) acc = acc.reverse :: splitLinesAux rest [] := by
  simp [splitLinesAux]

theorem splitLinesAux_crlf (rest acc : List Char) :
    splitLinesAux ('\r' :: '\n' :: rest) acc = acc.reverse :: splitLinesAux rest [] := by
  simp [splitLinesAux]

theorem splitLinesAux_cr (rest acc : List Char) (h : rest.head? ≠ some '\n') :
    splitLinesAux ('\r' :: rest) acc = acc.reverse :: splitLinesAux rest [] := by
  cases rest with
  | nil => simp [splitLinesAux]
  | cons c rest2 =>
    simp only [List.head?] at h
    have hc : c ≠ '\n' := by intro hc; exact h (by rw [hc])
    simp [splitLinesAux, hc]

theorem splitLinesAux_other (c : Char) (rest acc : List Char) (h1 : c ≠ '\r') (h2 : c ≠ '\n') :
    splitLinesAux (c :: rest) acc = splitLinesAux rest (c :: acc) := by
  simp [splitLinesAux, h1, h2]

/-- Consuming one terminator-free line followed by its terminator:
the scanner yields the accumulated prefix plus that line, then
continues on the rest.  For the CR terminator the rest must not begin
with LF (with a uniform terminator convention it never does). -/
theorem splitLinesAux_line (t : LineEnd) (l rest acc : List Char)
    (hr : '\r' ∉ l) (hn : '\n' ∉ l)
    (hrest : t = LineEnd.cr → rest.head? ≠ some '\n') :
    splitLinesAux (l ++ t.val ++ rest) acc = (acc.reverse ++ l) :: splitLinesAux rest [] := by
  induction l generalizing acc with
  | nil =>
    cases t with
    | cr => simpa using splitLinesAux_cr rest acc (hrest rfl)
    | lf => simpa using splitLinesAux_lf rest acc
    | crlf => simpa using splitLinesAux_crlf rest acc
  | cons c cs ih =>
    have hc1 : c ≠ '\r' := fun hc => hr (hc ▸ List.mem_cons_self c cs)
    have hc2 : c ≠ '\n' := fun hc => hn (hc ▸ List.mem_cons_self c cs)
    have hr2 : '\r' ∉ cs := fun hm => hr (List.mem_cons_of_mem c hm)
    have hn2 : '\n' ∉ cs := fun hm => hn (List.mem_cons_of_mem c hm)
    calc splitLinesAux ((c :: cs) ++ t.val ++ rest) acc
        = splitLinesAux (cs ++ t.val ++ rest) (c :: acc) := by
          simpa using splitLinesAux_other c (cs ++ t.val ++ rest) acc hc1 hc2
      _ = ((c :: acc).reverse ++ cs) :: splitLinesAux rest [] := ih (c :: acc) hr2 hn2
      _ = (acc.reverse ++ c :: cs) :: splitLinesAux rest [] := by simp

theorem lf_not_mem_serializeRecord (r : List (List Char)) (h : ∀ l ∈ r, SafeLine l) :
    '\n' ∉ serializeRecord LineEnd.cr r := by
  simp only [serializeRecord, List.mem_append, List.mem_flatten, List.mem_map, LineEnd.val]
  rintro (⟨x, ⟨l, hl, rfl⟩, hx⟩ | hx)
  · rcases List.mem_append.mp hx with hx | hx
    · exact (h l hl).2.2 hx
    · simp at hx
  · simp at hx

theorem lf_not_mem_serializeStream (rs : List (List (List Char)))
    (h : ∀ r ∈ rs, ∀ l ∈ r, SafeLine l) :
    '\n' ∉ serializeStream LineEnd.cr rs := by
  simp only [serializeStream, List.mem_flatten, List.mem_map]
  rintro ⟨x, ⟨r, hr, rfl⟩, hx⟩
  exact lf_not_mem_serializeRecord r (h r hr) hx

theorem head?_ne_lf_of_not_mem (x : List Char) (h : '\n' ∉ x) : x.head? ≠ some '\n' := by
  cases x with
  | nil => simp
  | cons c cs =>
    simp only [List.head?]
    intro hc
    exact h (Option.some.inj hc ▸ List.mem_cons_self c cs)

theorem head?_append_ne_lf (A rest : List Char) (hA : A ≠ []) (h : '\n' ∉ A) :
    (A ++ rest).head? ≠ some '\n' := by
  cases A with
  | nil => exact absurd rfl hA
  | cons c cs =>
    simp only [List.cons_append, List.head?]
    intro hc
    exact h (Option.some.inj hc ▸ List.mem_cons_self c cs)

theorem serializeRecord_ne_nil (t : LineEnd) (r : List (List Char)) :
    serializeRecord t r ≠ [] := by
  cases t <;> simp [serializeRecord, LineEnd.val]

/-- The scanner recovers one serialized record: its lines, then a blank
line, then whatever the rest scans to. -/
theorem splitLinesAux_record (t : LineEnd) (r : List (List Char)) (rest : List Char)
    (h : ∀ l ∈ r, SafeLine l) (hrest : t = LineEnd.cr → rest.head? ≠ some '\n') :
    splitLinesAux (serializeRecord t r ++ rest) []
      = r ++ [] :: splitLinesAux rest [] := by
  induction r with
  | nil =>
    have := splitLinesAux_line t [] rest [] (by simp) (by simp) hrest
    simpa [serializeRecord] using this
  | cons l r' ih =>
    have hsafe := h l (List.mem_cons_self l r')
    have htail : ∀ x ∈ r', SafeLine x := fun x hx => h x (List.mem_cons_of_mem _ hx)
    have hrec : serializeRecord t (l :: r') ++ rest
        = l ++ t.val ++ (serializeRecord t r' ++ rest) := by
      simp [serializeRecord, List.append_assoc]
    have hrest2 : t = LineEnd.cr → (serializeRecord t r' ++ rest).head? ≠ some '\n' := by
      intro ht
      subst ht
      exact head?_append_ne_lf _ rest (serializeRecord_ne_nil _ r')
        (lf_not_mem_serializeRecord r' htail)
    rw [hrec, splitLinesAux_line t l (serializeRecord t r' ++ rest) [] hsafe.2.1 hsafe.2.2 hrest2,
      ih htail]
    simp

/-- The scanner decomposes a serialized stream of safe records into the
records' lines, each followed by a blank line, under any of the three
line terminator conventions. -/
theorem splitLines_serializeStream (t : LineEnd) (rs : List (List (List Char)))
    (h : ∀ r ∈ rs, ∀ l ∈ r, SafeLine l) :
    splitLines (serializeStream t rs) = (rs.map (fun r => r ++ [[]])).flatten := by
  induction rs with
  | nil => simp [splitLines, serializeStream, splitLinesAux]
  | cons r rs' ih =>
    have hstream : serializeStream t (r :: rs') = serializeRecord t r ++ serializeStream t rs' := by
      simp [serializeStream]
    have hrest : t = LineEnd.cr → (serializeStream t rs').head? ≠ some '\n' := by
      intro ht
      subst ht
      exact head?_ne_lf_of_not_mem _
        (lf_not_mem_serializeStream rs' (fun r hr => h r (List.mem_cons_of_mem _ hr)))
    calc splitLines (serializeStream t (r :: rs'))
        = splitLinesAux (serializeRecord t r ++ serializeStream t rs') [] := by
          rw [splitLines, hstream]
      _ = r ++ [] :: splitLinesAux (serializeStream t rs') [] :=
          splitLinesAux_record t r _ (h r (List.mem_cons_self r rs')) hrest
      _ = r ++ [] :: ((rs'.map (fun r => r ++ [[]])).flatten) := by
          rw [← ih (fun r hr => h r (List.mem_cons_of_mem _ hr))]; rfl
      _ = ((r :: rs').map (fun r => r ++ [[]])).flatten := by simp

/-- Splitting a `name:value` line whose name contains no colon. -/
theorem fieldName_split (name v : List Char) (h : ':' ∉ name) :
    fieldName (name ++ ':' :: v) = name ∧ rawFieldValue (name ++ ':' :: v) = v := by
  induction name with
  | nil => simp [fieldName, rawFieldValue]
  | cons c cs ih =>
    have hc : c ≠ ':' := fun hc => h (hc ▸ List.mem_cons_self c cs)
    have ih2 := ih (fun hm => h (List.mem_cons_of_mem _ hm))
    constructor
    · simpa [fieldName, List.takeWhile_cons, hc] using ih2.1
    · simpa [rawFieldValue, List.dropWhile_cons, hc] using ih2.2

theorem stepField_data_line (l : List Char) (h : fieldName l = chars "data") (s : DecoderState) :
    stepField s l = { s with data := s.data ++ [fieldValue l] } := by
  simp [stepField, h]

theorem stepField_id_of_ne (l : List Char) (h : fieldName l ≠ chars "id") (s : DecoderState) :
    (stepField s l).id = s.id := by
  unfold stepField
  repeat' split
  all_goals simp_all

theorem stepField_data_extend (l : List Char) (s : DecoderState) :
    ∃ t, (stepField s l).data = s.data ++ t := by
  unfold stepField
  repeat' split
  all_goals first
  | exact ⟨[fieldValue l], rfl⟩
  | exact ⟨[], by simp⟩

theorem foldl_stepField_data_extend (r : List (List Char)) (s : DecoderState) :
    ∃ t, (r.foldl stepField s).data = s.data ++ t := by
  induction r generalizing s with
  | nil => exact ⟨[], by simp⟩
  | cons l r' ih =>
    obtain ⟨t1, h1⟩ := stepField_data_extend l s
    obtain ⟨t2, h2⟩ := ih (stepField s l)
    exact ⟨t1 ++ t2, by simp [List.foldl_cons, h2, h1]⟩

/-- A record containing a `data` field line accumulates at least one
chunk, whatever state it starts from. -/
theorem foldl_stepField_data_ne_nil (r : List (List Char)) (s : DecoderState)
    (h : ∃ l ∈ r, fieldName l = chars "data") :
    (r.foldl stepField s).data ≠ [] := by
  induction r generalizing s with
  | nil => simp at h
  | cons l r' ih =>
    rcases h with ⟨l0, hl0, hdata⟩
    rcases List.mem_cons.mp hl0 with rfl | hl0
    · rcases foldl_stepField_data_extend r' (stepField s l0) with ⟨t, ht⟩
      rw [List.foldl_cons, ht, stepField_data_line l0 hdata s]
      simp
    · exact ih (stepField s l) ⟨l0, hl0, hdata⟩

/-- Field lines (non-empty lines) emit nothing; they only advance the
decoder state. -/
theorem decodeLines_fields (r : List (List Char)) (ls : List (List Char)) (s : DecoderState)
    (h : ∀ l ∈ r, l ≠ []) :
    decodeLines (r ++ ls) s = decodeLines ls (r.foldl stepField s) := by
  induction r generalizing s with
  | nil => simp
  | cons l r' ih =>
    have hl : l ≠ [] := h l (List.mem_cons_self l r')
    calc decodeLines ((l :: r') ++ ls) s
        = decodeLines (r' ++ ls) (stepField s l) := by simp [decodeLines, hl]
      _ = decodeLines ls ((l :: r').foldl stepField s) := by
          rw [ih (stepField s l) (fun x hx => h x (List.mem_cons_of_mem _ hx))]
          simp

/-- The dispatch boundary: an empty line emits the pending event exactly
when data was accumulated, and clears data and name either way. -/
theorem decodeLines_boundary (ls : List (List Char)) (s : DecoderState) :
    decodeLines ([] :: ls) s
      = (if s.data = [] then [] else [mkEvent s]) ++ decodeLines ls (clearAtBoundary s) := by
  by_cases hd : s.data = [] <;> simp [decodeLines, hd]

/-- One well-formed record between boundaries emits exactly one event. -/
theorem decodeLines_record (r : List (List Char)) (ls : List (List Char)) (s : DecoderState)
    (hne : ∀ l ∈ r, l ≠ []) (hdata : ∃ l ∈ r, fieldName l = chars "data") :
    decodeLines (r ++ [] :: ls) s
      = mkEvent (r.foldl stepField s) :: decodeLines ls (clearAtBoundary (r.foldl stepField s)) := by
  rw [decodeLines_fields r ([] :: ls) s hne, decodeLines_boundary ls (r.foldl stepField s)]
  simp [foldl_stepField_data_ne_nil r s hdata]

/-- The flat line-by-line decoder agrees with the per-record reference
semantics on any sequence of well-formed records. -/
theorem decodeLines_records (rs : List (List (List Char))) (s : DecoderState)
    (h : ∀ r ∈ rs, WFRecord r) :
    decodeLines ((rs.map (fun r => r ++ [[]])).flatten) s = recordEvents s rs := by
  induction rs generalizing s with
  | nil => simp [decodeLines, recordEvents]
  | cons r rs' ih =>
    have hwf := h r (List.mem_cons_self r rs')
    have hne : ∀ l ∈ r, l ≠ [] := fun l hl => (hwf.1 l hl).1
    calc decodeLines (((r :: rs').map (fun r => r ++ [[]])).flatten) s
        = decodeLines (r ++ [] :: (rs'.map (fun r => r ++ [[]])).flatten) s := by
          simp
      _ = mkEvent (r.foldl stepField s)
            :: decodeLines ((rs'.map (fun r => r ++ [[]])).flatten)
                 (clearAtBoundary (r.foldl stepField s)) :=
          decodeLines_record r _ s hne hwf.2
      _ = recordEvents s (r :: rs') := by
          rw [ih _ (fun x hx => h x (List.mem_cons_of_mem _ hx))]
          simp [recordEvents]

theorem recordEvents_length (rs : List (List (List Char))) (s : DecoderState) :
    (recordEvents s rs).length = rs.length := by
  induction rs generalizing s with
  | nil => rfl
  | cons r rs' ih => simp [recordEvents, ih]

/-- Processing lines without an `id` field leaves the pending id
untouched (boundaries clear only data and name). -/
theorem foldl_stepLine_id (ls : List (List Char)) (h : ∀ l ∈ ls, fieldName l ≠ chars "id")
    (s : DecoderState) : (ls.foldl stepLine s).id = s.id := by
  induction ls generalizing s with
  | nil => rfl
  | cons l ls' ih =>
    rw [List.foldl_cons, ih (fun x hx => h x (List.mem_cons_of_mem _ hx))]
    by_cases hl : l = []
    · simp [stepLine, hl, clearAtBoundary]
    · simp [stepLine, hl, stepField_id_of_ne l (h l (List.mem_cons_self l ls'))]

/-- A `data:`-prefixed line appends the one-space-stripped value as a
new chunk. -/
theorem stepField_data_value (v : List Char) (s : DecoderState) :
    stepField s (chars "data:" ++ v) = { s with data := s.data ++ [stripOneSpace v] } := by
  have hsplit : chars "data:" ++ v = chars "data" ++ ':' :: v := rfl
  have hname : fieldName (chars "data:" ++ v) = chars "data" := by
    rw [hsplit, (fieldName_split _ _ (by decide)).1]
  have hval : fieldValue (chars "data:" ++ v) = stripOneSpace v := by
    rw [fieldValue, hsplit, (fieldName_split _ _ (by decide)).2]
  rw [stepField_data_line _ hname, hval]

theorem foldl_stepField_data_values (vs : List (List Char)) (s : DecoderState) :
    (vs.map (fun v => chars "data:" ++ v)).foldl stepField s
      = { s with data := s.data ++ vs.map stripOneSpace } := by
  induction vs generalizing s with
  | nil => simp
  | cons v vs' ih =>
    rw [List.map_cons, List.foldl_cons, stepField_data_value v s, ih]
    simp

/-- C1: for every input stream containing N well-formed SSE records
(each terminated by a blank line), decode yields exactly N events, in
the same order the records appear on the wire (one event per record,
given by the per-record reference semantics `recordEvents`), and the
result is identical whether the lines are terminated by CR, LF, or
CRLF. -/
theorem C1_decode_well_formed_records (rs : List (List (List Char))) (t : LineEnd)
    (h : ∀ r ∈ rs, WFRecord r) :
    sseDecode (serializeStream t rs) = recordEvents initialDecoderState rs ∧
    (sseDecode (serializeStream t rs)).length = rs.length ∧
    sseDecode (serializeStream t rs) = sseDecode (serializeStream LineEnd.lf rs) := by
  have hsafe : ∀ r ∈ rs, ∀ l ∈ r, SafeLine l := fun r hr l hl => (h r hr).1 l hl
  have key : ∀ t' : LineEnd,
      sseDecode (serializeStream t' rs) = recordEvents initialDecoderState rs := by
    intro t'
    rw [sseDecode, splitLines_serializeStream t' rs hsafe, decodeLines_records rs _ h]
  exact ⟨key t, by rw [key t, recordEvents_length], by rw [key t, key LineEnd.lf]⟩

theorem C1_witness :
    (∀ r ∈ [[chars "data: hi"], [chars "event: e", chars "data: ho"]], WFRecord r) ∧
    (sseDecode (serializeStream LineEnd.crlf
        [[chars "data: hi"], [chars "event: e", chars "data: ho"]])
      = recordEvents initialDecoderState
          [[chars "data: hi"], [chars "event: e", chars "data: ho"]] ∧
    (sseDecode (serializeStream LineEnd.crlf
        [[chars "data: hi"], [chars "event: e", chars "data: ho"]])).length
      = [[chars "data: hi"], [chars "event: e", chars "data: ho"]].length ∧
    sseDecode (serializeStream LineEnd.crlf
        [[chars "data: hi"], [chars "event: e", chars "data: ho"]])
      = sseDecode (serializeStream LineEnd.lf
          [[chars "data: hi"], [chars "event: e", chars "data: ho"]])) :=
  ⟨by decide, C1_decode_well_formed_records _ LineEnd.crlf (by decide)⟩

/-- C2: for every line of the form `name:value` processed by the
decoder, the field value is the text after the first colon with at most
one leading space removed — exactly one space when the value starts
with one, none otherwise; decoding `"data:   first\n\n"` (three spaces)
yields an event whose data is `"  first"` (two spaces). -/
theorem C2_at_most_one_space (n v : List Char) (hn : ':' ∉ n) :
    fieldValue (n ++ ':' :: v) = stripOneSpace v ∧
    (∀ w, stripOneSpace (' ' :: w) = w) ∧
    (∀ w, w.head? ≠ some ' ' → stripOneSpace w = w) ∧
    sseDecode (chars "data:   first\n\n") = [⟨[], [], chars "  first"⟩] := by
  refine ⟨?_, fun w => rfl, fun w hw => ?_, by decide⟩
  · rw [fieldValue, (fieldName_split n v hn).2]
  · cases w with
    | nil => rfl
    | cons c cs =>
      have hc : c ≠ ' ' := by
        intro hc
        exact hw (by rw [hc]; rfl)
      simp [stripOneSpace, hc]

theorem C2_witness :
    fieldValue (chars "data" ++ ':' :: chars "   first") = stripOneSpace (chars "   first") ∧
    (∀ w, stripOneSpace (' ' :: w) = w) ∧
    (∀ w, w.head? ≠ some ' ' → stripOneSpace w = w) ∧
    sseDecode (chars "data:   first\n\n") = [⟨[], [], chars "  first"⟩] :=
  C2_at_most_one_space (chars "data") (chars "   first") (by decide)

/-- C3 (counterexample): the claim's rule "every line with no colon is
a dispatch boundary" yields no events at all on the wire input of test
`TestEventsWithNoDataThenWithNewLine`, while the decoder (per that
test) emits two events; a bare `data` line is a field line, not a
boundary. -/
theorem C3_counterexample :
    decodeLinesNoColonBoundary (splitLines (chars "data\n\ndata\ndata\n\n"))
        initialDecoderState = [] ∧
    sseDecode (chars "data\n\ndata\ndata\n\n") = [⟨[], [], []⟩, ⟨[], [], chars "\n"⟩] ∧
    decodeLinesNoColonBoundary (splitLines (chars "data\n\ndata\ndata\n\n"))
        initialDecoderState
      ≠ sseDecode (chars "data\n\ndata\ndata\n\n") := by
  exact ⟨by decide, by decide, by decide⟩

/-- C3 (amended): during decoding, every empty line is a dispatch
boundary (a non-empty line with no colon is instead a field line with
empty value): if any data was accumulated (including a zero-length
chunk) an event built from the current id, event name and joined data
is emitted; the data accumulator and event name are then cleared while
the pending id and retry interval are kept; with no accumulated data
nothing is emitted, so a comment-only record never emits and repeated
boundaries with empty data between real records never emit spurious
events. -/
theorem C3_empty_line_dispatch_boundary (s : DecoderState) (ls : List (List Char)) :
    decodeLines ([] :: ls) s
      = (if s.data = [] then [] else [mkEvent s]) ++ decodeLines ls (clearAtBoundary s) ∧
    (clearAtBoundary s).data = [] ∧ (clearAtBoundary s).name = [] ∧
    (clearAtBoundary s).id = s.id ∧ (clearAtBoundary s).retry = s.retry ∧
    sseDecode (chars ": comment only\n\n") = [] ∧
    sseDecode (chars "data: a\n\n\n\ndata: b\n\n")
      = [⟨[], [], chars "a"⟩, ⟨[], [], chars "b"⟩] :=
  ⟨decodeLines_boundary ls s, rfl, rfl, rfl, rfl, by decide, by decide⟩

/-- C4: a line consisting of exactly a field name with no colon is
treated as that field with an empty value: a bare `data` line appends
an empty chunk (so a following blank line emits an event with empty
data), and a bare `id` line clears the pending id (per test
`TestCommentIsIgnoredAndDataIsNot`, the record after a bare `id` line
emits with an empty id). -/
theorem C4_bare_field_lines :
    (∀ s : DecoderState, stepField s (chars "data") = { s with data := s.data ++ [[]] }) ∧
    (∀ s : DecoderState, stepField s (chars "id") = { s with id := [] }) ∧
    sseDecode (chars "data\n\n") = [⟨[], [], []⟩] ∧
    sseDecode
        (chars ": test stream\n\ndata: first event\nid: 1\n\ndata:second event\nid\n\ndata:  third event\n\n")
      = [⟨chars "1", [], chars "first event"⟩, ⟨[], [], chars "second event"⟩,
         ⟨[], [], chars " third event"⟩] :=
  ⟨fun s => rfl, fun s => rfl, by decide, by decide⟩

/-- C5: for every record of one or more `data` lines, the emitted
event's data is the concatenation of the per-line values joined by a
single newline, in line order; `"data: this is \r\ndata: a test\r\n\r\n"`
decodes to one event with data `"this is \na test"`. -/
theorem C5_multi_line_data_join (vs : List (List Char)) (h : vs ≠ []) :
    decodeLines ((vs.map (fun v => chars "data:" ++ v)) ++ [[]]) initialDecoderState
      = [⟨[], [], joinNL (vs.map stripOneSpace)⟩] ∧
    sseDecode (chars "data: this is \r\ndata: a test\r\n\r\n")
      = [⟨[], [], chars "this is \na test"⟩] := by
  refine ⟨?_, by decide⟩
  have hne : ∀ l ∈ vs.map (fun v => chars "data:" ++ v), l ≠ [] := by
    intro l hl
    rcases List.mem_map.mp hl with ⟨v, _, rfl⟩
    exact List.cons_ne_nil _ _
  rw [decodeLines_fields _ _ _ hne, foldl_stepField_data_values]
  have hmap : vs.map stripOneSpace ≠ [] := by
    intro hmap
    exact h (List.map_eq_nil_iff.mp hmap)
  simp [decodeLines, hmap, mkEvent, initialDecoderState]

theorem C5_witness :
    (chars "this is " :: [chars " a test"] ≠ []) ∧
    decodeLines (((chars "this is " :: [chars " a test"]).map
        (fun v => chars "data:" ++ v)) ++ [[]]) initialDecoderState
      = [⟨[], [], joinNL ((chars "this is " :: [chars " a test"]).map stripOneSpace)⟩] ∧
    sseDecode (chars "data: this is \r\ndata: a test\r\n\r\n")
      = [⟨[], [], chars "this is \na test"⟩] :=
  ⟨by decide, C5_multi_line_data_join (chars "this is " :: [chars " a test"]) (by decide)⟩

/-- C6: whenever a connection attempt receives a response whose content
type is not exactly the SSE media type, the controller returns
`ErrContentType` with the EventSource already `Closed`, the event queue
closed with zero events delivered, and no reconnect attempt is ever
made for this failure class (one connection attempt, no waits),
whatever responses the server could still have served. -/
theorem C6_content_type_mismatch (ct body : List Char) (rest : List Response) (st : ESState)
    (h : ct ≠ sseMediaType) :
    runES (⟨ct, body⟩ :: rest) st
      = ⟨some SseError.ErrContentType, ReadyState.Closed, [], true, 1, [], st.lastEventID⟩ := by
  simp [runES, h]

theorem C6_witness :
    runES [⟨chars "text/plain; charset=utf-8", chars "data: x\n\n"⟩,
           ⟨sseMediaType, chars "data: y\n\n"⟩] initialESState
      = ⟨some SseError.ErrContentType, ReadyState.Closed, [], true, 1, [],
         initialESState.lastEventID⟩ :=
  C6_content_type_mismatch (chars "text/plain; charset=utf-8") (chars "data: x\n\n")
    [⟨sseMediaType, chars "data: y\n\n"⟩] initialESState (by decide)

/-- C7: the last event id is sticky: a pending id is committed only
when an event is actually emitted; records without an `id` field leave
the pending id untouched, so after an event with id "123" a later
event carrying no id field still reports "123"; only an explicit empty
`id:` line resets it; and the committed value survives reconnects
(second connection attempt) while a body with an id but no completed
record commits nothing. -/
theorem C7_last_event_id_sticky (ls : List (List Char))
    (h : ∀ l ∈ ls, fieldName l ≠ chars "id") :
    (∀ s : DecoderState, (ls.foldl stepLine s).id = s.id) ∧
    sseDecode (chars "id: 123\ndata: x\n\ndata: y\n\n")
      = [⟨chars "123", [], chars "x"⟩, ⟨chars "123", [], chars "y"⟩] ∧
    sseDecode (chars "id: 123\ndata: x\n\nid:\ndata: y\n\n")
      = [⟨chars "123", [], chars "x"⟩, ⟨[], [], chars "y"⟩] ∧
    (runES [⟨sseMediaType, chars "id: 123\ndata: x\n\n"⟩,
            ⟨sseMediaType, chars "data: y\n\n"⟩] initialESState).lastID = chars "123" ∧
    (runES [⟨sseMediaType, chars "id: 999\ndata: x"⟩] initialESState).lastID = [] :=
  ⟨fun s => foldl_stepLine_id ls h s, by decide, by decide, by decide, by decide⟩

theorem C7_witness :
    (∀ s : DecoderState,
      ([chars "data: z", []].foldl stepLine s).id = s.id) ∧
    sseDecode (chars "id: 123\ndata: x\n\ndata: y\n\n")
      = [⟨chars "123", [], chars "x"⟩, ⟨chars "123", [], chars "y"⟩] :=
  ⟨(C7_last_event_id_sticky [chars "data: z", []] (by decide)).1,
   (C7_last_event_id_sticky [chars "data: z", []] (by decide)).2.1⟩

/-- C9: the `ReadyState` enumeration has exactly the stable numeric
encoding Connecting=0, Open=1, Closing=2, Closed=3, and the four
values are pairwise distinct (as are their codes). -/
theorem C9_ready_state_encoding :
    ReadyState.Connecting.code = 0 ∧ ReadyState.Open.code = 1 ∧
    ReadyState.Closing.code = 2 ∧ ReadyState.Closed.code = 3 ∧
    [ReadyState.Connecting, ReadyState.Open, ReadyState.Closing, ReadyState.Closed].Nodup ∧
    ([ReadyState.Connecting, ReadyState.Open, ReadyState.Closing,
      ReadyState.Closed].map ReadyState.code).Nodup :=
  ⟨rfl, rfl, rfl, rfl, by decide, by decide⟩

/-- C10: for every input and every non-positive buffer size,
`NewDecoderSize` constructs a decoder identical to `NewDecoder`
(growing line buffer, same split function, retry initialised to
`defaultRetry`); only a strictly positive buffer size installs a
fixed-capacity line buffer of exactly that size. -/
theorem C10_decoder_size_nonpositive (input : List Char) (n : Int) (h : n ≤ 0) :
    NewDecoderSize input n = NewDecoder input ∧
    (NewDecoder input).bufferCap = none ∧
    (NewDecoder input).splitFn = SplitFunction.scanLinesCR ∧
    (NewDecoder input).retry = defaultRetry ∧
    (∀ m : Int, (NewDecoderSize input m).bufferCap
        = if m > 0 then some m.toNat else none) := by
  have hn : ¬ (n > 0) := by omega
  exact ⟨by simp [NewDecoderSize, NewDecoder, hn], rfl, rfl, rfl, fun m => rfl⟩

theorem parseRetry_isDigit (v : List Char) (n : Nat) (h : parseRetry v = some n) :
    ∀ c ∈ v, c.isDigit = true := by
  unfold parseRetry at h
  split at h
  · rename_i hc
    exact fun c hm => List.all_eq_true.mp hc.2 c hm
  · exact absurd h (by simp)

theorem cr_not_mem_retry_line (v : List Char) (hd : ∀ c ∈ v, c.isDigit = true) :
    '\r' ∉ chars "retry: " ++ v := by
  intro hm
  rcases List.mem_append.mp hm with hm | hm
  · revert hm; decide
  · exact absurd (hd '\r' hm) (by decide)

theorem lf_not_mem_retry_line (v : List Char) (hd : ∀ c ∈ v, c.isDigit = true) :
    '\n' ∉ chars "retry: " ++ v := by
  intro hm
  rcases List.mem_append.mp hm with hm | hm
  · revert hm; decide
  · exact absurd (hd '\n' hm) (by decide)

theorem retry_line_ne_nil (v : List Char) : chars "retry: " ++ v ≠ [] := by
  have : chars "retry: " ++ v = 'r' :: (chars "etry: " ++ v) := rfl
  rw [this]
  exact List.cons_ne_nil _ _

/-- A `retry: <value>` line whose value parses updates only the retry
interval. -/
theorem stepField_retry_line (v : List Char) (n : Nat) (h : parseRetry v = some n)
    (s : DecoderState) :
    stepField s (chars "retry: " ++ v) = { s with retry := n } := by
  have hsplit : chars "retry: " ++ v = chars "retry" ++ ':' :: (' ' :: v) := rfl
  have hname : fieldName (chars "retry: " ++ v) = chars "retry" := by
    rw [hsplit, (fieldName_split _ _ (by decide)).1]
  have hval : fieldValue (chars "retry: " ++ v) = v := by
    rw [fieldValue, hsplit, (fieldName_split _ _ (by decide)).2]
    rfl
  simp only [stepField, hname, hval, h]
  rw [if_neg (by decide : ¬(chars "retry" = chars "data")),
    if_neg (by decide : ¬(chars "retry" = chars "id")),
    if_neg (by decide : ¬(chars "retry" = chars "event"))]
  simp

theorem splitLines_retry_one (v : List Char) (hd : ∀ c ∈ v, c.isDigit = true) :
    splitLines (chars "retry: " ++ v ++ ['\n']) = [chars "retry: " ++ v] := by
  have hform : chars "retry: " ++ v ++ ['\n']
      = (chars "retry: " ++ v) ++ LineEnd.lf.val ++ [] := by
    simp [LineEnd.val, List.append_assoc]
  rw [splitLines, hform,
    splitLinesAux_line LineEnd.lf _ _ _ (cr_not_mem_retry_line v hd)
      (lf_not_mem_retry_line v hd) (fun ht => nomatch ht)]
  simp [splitLinesAux]

theorem splitLines_retry_data (v : List Char) (hd : ∀ c ∈ v, c.isDigit = true) :
    splitLines (chars "retry: " ++ v ++ chars "\ndata: x\n\n")
      = [chars "retry: " ++ v, chars "data: x", []] := by
  have hform : chars "retry: " ++ v ++ chars "\ndata: x\n\n"
      = (chars "retry: " ++ v) ++ LineEnd.lf.val ++ chars "data: x\n\n" := by
    have h2 : chars "\ndata: x\n\n" = '\n' :: chars "data: x\n\n" := rfl
    simp [LineEnd.val, List.append_assoc, h2]
  have htail : splitLinesAux (chars "data: x\n\n") [] = [chars "data: x", []] := by decide
  rw [splitLines, hform,
    splitLinesAux_line LineEnd.lf _ _ _ (cr_not_mem_retry_line v hd)
      (lf_not_mem_retry_line v hd) (fun ht => nomatch ht), htail]
  simp

theorem runES_waits_cons (r : Response) (rest : List Response) (st : ESState)
    (h : r.contentType = sseMediaType) (hrest : rest ≠ []) :
    (runES (r :: rest) st).waits
      = ((splitLines r.body).foldl stepLine st.ds).retry
        :: (runES rest ⟨(splitLines r.body).foldl stepLine st.ds,
             commitLast st.lastEventID (decodeLines (splitLines r.body) st.ds)⟩).waits := by
  simp [runES, h, hrest]

theorem runES_waits_last (r : Response) (st : ESState) (h : r.contentType = sseMediaType) :
    (runES [r] st).waits = [] := by
  simp [runES, h]

theorem runES_attempts_cons (r : Response) (rest : List Response) (st : ESState)
    (h : r.contentType = sseMediaType) :
    (runES (r :: rest) st).connectionAttempts
      = (runES rest ⟨(splitLines r.body).foldl stepLine st.ds,
          commitLast st.lastEventID (decodeLines (splitLines r.body) st.ds)⟩).connectionAttempts
        + 1 := by
  by_cases hrest : rest = [] <;> simp [runES, h, hrest]

/-- C8: after a stream drop the controller sleeps the retry interval
currently in effect and then reconnects; a `retry:` field update takes
effect only on the next scheduled wait: with `retry: <v1>` sent before
the first drop the first wait is exactly v1 milliseconds, and a later
`retry: <v2>` changes only the following wait (the run makes all three
connection attempts). -/
theorem C8_retry_interval_next_wait (v1 v2 : List Char) (n1 n2 : Nat)
    (h1 : parseRetry v1 = some n1) (h2 : parseRetry v2 = some n2) :
    (runES [⟨sseMediaType, chars "retry: " ++ v1 ++ ['\n']⟩,
            ⟨sseMediaType, chars "retry: " ++ v2 ++ chars "\ndata: x\n\n"⟩,
            ⟨sseMediaType, chars "data: y\n\n"⟩] initialESState).waits = [n1, n2] ∧
    (runES [⟨sseMediaType, chars "retry: " ++ v1 ++ ['\n']⟩,
            ⟨sseMediaType, chars "retry: " ++ v2 ++ chars "\ndata: x\n\n"⟩,
            ⟨sseMediaType, chars "data: y\n\n"⟩] initialESState).connectionAttempts = 3 := by
  have hd1 := parseRetry_isDigit v1 n1 h1
  have hd2 := parseRetry_isDigit v2 n2 h2
  have hfold1 : ∀ s : DecoderState,
      [chars "retry: " ++ v1].foldl stepLine s = { s with retry := n1 } := by
    intro s
    rw [List.foldl_cons, List.foldl_nil]
    simp only [stepLine, if_neg (retry_line_ne_nil v1)]
    exact stepField_retry_line v1 n1 h1 s
  have hs2 : ∀ s : DecoderState, stepLine s (chars "data: x")
      = { s with data := s.data ++ [chars "x"] } := by
    intro s
    simp only [stepLine, if_neg (by decide : ¬(chars "data: x" = []))]
    have hx : chars "data: x" = chars "data:" ++ chars " x" := rfl
    have hstrip : stripOneSpace (chars " x") = chars "x" := by decide
    rw [hx, stepField_data_value, hstrip]
  have hfold2 : ∀ s : DecoderState,
      [chars "retry: " ++ v2, chars "data: x", []].foldl stepLine s
        = { s with data := [], name := [], retry := n2 } := by
    intro s
    have hs1 : stepLine s (chars "retry: " ++ v2) = { s with retry := n2 } := by
      simp only [stepLine, if_neg (retry_line_ne_nil v2)]
      exact stepField_retry_line v2 n2 h2 s
    rw [List.foldl_cons, List.foldl_cons, List.foldl_cons, List.foldl_nil, hs1, hs2]
    simp only [stepLine, if_pos rfl]
    rfl
  refine ⟨?_, ?_⟩
  · rw [runES_waits_cons _ _ _ rfl (by simp)]
    rw [show (⟨sseMediaType, chars "retry: " ++ v1 ++ ['\n']⟩ : Response).body
        = chars "retry: " ++ v1 ++ ['\n'] from rfl]
    rw [splitLines_retry_one v1 hd1]
    rw [show initialESState.ds = initialDecoderState from rfl, hfold1 initialDecoderState]
    rw [runES_waits_cons _ _ _ rfl (by simp)]
    rw [show (⟨sseMediaType, chars "retry: " ++ v2 ++ chars "\ndata: x\n\n"⟩ : Response).body
        = chars "retry: " ++ v2 ++ chars "\ndata: x\n\n" from rfl]
    rw [splitLines_retry_data v2 hd2]
    rw [hfold2]
    rw [runES_waits_last _ _ rfl]
  · rw [runES_attempts_cons _ _ _ rfl, runES_attempts_cons _ _ _ rfl,
      runES_attempts_cons _ _ _ rfl]
    rfl

theorem C8_witness :
    (runES [⟨sseMediaType, chars "retry: " ++ chars "100" ++ ['\n']⟩,
            ⟨sseMediaType, chars "retry: " ++ chars "1" ++ chars "\ndata: x\n\n"⟩,
            ⟨sseMediaType, chars "data: y\n\n"⟩] initialESState).waits = [100, 1] ∧
    (runES [⟨sseMediaType, chars "retry: " ++ chars "100" ++ ['\n']⟩,
            ⟨sseMediaType, chars "retry: " ++ chars "1" ++ chars "\ndata: x\n\n"⟩,
            ⟨sseMediaType, chars "data: y\n\n"⟩] initialESState).connectionAttempts = 3 :=
  C8_retry_interval_next_wait (chars "100") (chars "1") 100 1 (by decide) (by decide)

theorem C10_witness :
    NewDecoderSize (chars "data: x\n\n") (-5) = NewDecoder (chars "data: x\n\n") ∧
    (NewDecoder (chars "data: x\n\n")).bufferCap = none ∧
    (NewDecoder (chars "data: x\n\n")).splitFn = SplitFunction.scanLinesCR ∧
    (NewDecoder (chars "data: x\n\n")).retry = defaultRetry ∧
    (∀ m : Int, (NewDecoderSize (chars "data: x\n\n") m).bufferCap
        = if m > 0 then some m.toNat else none) :=
  C10_decoder_size_nonpositive (chars "data: x\n\n") (-5) (by decide)
